import Mathlib

/-!
Shallow embedding of the work-allocation and fetch-process pipeline of the
d0029e-ctf repository: chal1 is a sequential scanner built on a skip-sequence
allocator (src/chal1/src/skipseq.rs), chal2 a concurrent scanner built on an
atomic counter, a bounded channel and a single aggregator
(src/chal2/src/main.rs and src/chal2/src/scan.rs).
-/

/-! ## chal1: SkipSeq (src/chal1/src/skipseq.rs) -/

/-- State of the Rust struct `SkipSeq`: `passed`, `offset`, the skip-mark
vector (modelled as the list of its initialized elements) and the vector's
capacity, tracked separately because `SkipSeq::skip` does arithmetic on
`Vec::capacity`. -/
structure SkipSeq where
  passed : Nat
  offset : Nat
  skip : List Bool
  cap : Nat
  deriving DecidableEq

/-- `SkipSeq::init`. -/
def SkipSeq.init (offset : Nat) (skip : List Bool) (cap : Nat) : SkipSeq :=
  { passed := 0, offset := offset, skip := skip, cap := cap }

/-- `SkipSeq::new`: `Vec::new()` has length 0 and capacity 0. -/
def SkipSeq.new (start : Nat) : SkipSeq :=
  SkipSeq.init start [] 0

/-- `SkipSeq::with_capacity`: `Vec::with_capacity(c)` has length 0 and
capacity `c`. -/
def SkipSeq.with_capacity (start capacity : Nat) : SkipSeq :=
  SkipSeq.init start [] capacity

/-- `SkipSeq::peek`. -/
def SkipSeq.peek (s : SkipSeq) : Nat := s.passed + s.offset

/-- The `while self.skip.get(self.offset) ... { self.offset += 1 }` loop of
`SkipSeq::next`, modelled with explicit fuel so that a diverging loop would
be observable as `none`. `Vec::get` past the end yields `None`, so the
`unwrap_or_default` in the loop condition reads `false` there; this is the
`List.getD _ _ false` below. -/
def nextLoopFuel : Nat → List Bool → Nat → Option Nat
  | 0, _, _ => none
  | fuel + 1, skip, offset =>
    if skip.getD offset false = true then nextLoopFuel fuel skip (offset + 1)
    else some offset

/-- Exit position of the loop of `SkipSeq::next`; fuel `skip.length + 1`
always suffices (`nextLoopFuel_some`), so the default value is never used. -/
def nextLoop (skip : List Bool) (offset : Nat) : Nat :=
  (nextLoopFuel (skip.length + 1) skip offset).getD offset

/-- `SkipSeq::next`: advance past marked indices, return `passed + offset`,
then advance once more. -/
def SkipSeq.next (s : SkipSeq) : Nat × SkipSeq :=
  let o := nextLoop s.skip s.offset
  (s.passed + o, { s with offset := o + 1 })

/-- `SkipSeq::skip` (named `skipN` here because the struct field is also
called `skip`). A `none` result is a Rust panic: the usize subtraction
`i - self.skip.capacity()` overflows when `capacity > i` (debug overflow
panic; in release the wrapped value makes the subsequent `reserve` fail with
a capacity overflow), and the write `self.skip[i] = true` panics whenever
`i` is not below the vector's *length* — `reserve` never changes the length.
On the success path `reserve(additional)` guarantees a capacity of at least
`len + additional`; the model takes the least such value. -/
def SkipSeq.skipN (s : SkipSeq) (n : Nat) : Option (SkipSeq × Bool) :=
  if s.peek ≤ n then
    let i := n - s.passed
    if i < s.cap then none
    else
      let cap2 := max s.cap (s.skip.length + (i - s.cap))
      if i < s.skip.length then
        some ({ s with skip := s.skip.set i true, cap := cap2 }, true)
      else none
  else some (s, false)

/-- An operation performed on a `SkipSeq` allocator. -/
inductive SkipOp
  | nextOp : SkipOp
  | skipOp (n : Nat) : SkipOp
  deriving DecidableEq

/-- Observable event of one allocator operation: an ID issued by `next`, or
a `skip(n)` call together with the Bool it returned. -/
inductive SkipEv
  | issued (id : Nat) : SkipEv
  | skipTried (n : Nat) (accepted : Bool) : SkipEv
  deriving DecidableEq

/-- One allocator operation; `none` is a panic of `SkipSeq::skip`. -/
def skipStep (s : SkipSeq) : SkipOp → Option (SkipSeq × SkipEv)
  | SkipOp.nextOp =>
    let r := s.next
    some (r.2, SkipEv.issued r.1)
  | SkipOp.skipOp n =>
    (s.skipN n).map (fun p => (p.1, SkipEv.skipTried n p.2))

/-- Run a sequence of allocator operations, collecting the events; `none` as
soon as one operation panics. -/
def skipRun (s : SkipSeq) : List SkipOp → Option (SkipSeq × List SkipEv)
  | [] => some (s, [])
  | op :: ops =>
    match skipStep s op with
    | none => none
    | some (s2, e) => (skipRun s2 ops).map (fun p => (p.1, e :: p.2))

/-- The IDs handed out by `next` during a run, in order. -/
def issuedIds (es : List SkipEv) : List Nat :=
  es.filterMap (fun e =>
    match e with
    | SkipEv.issued r => some r
    | SkipEv.skipTried _ _ => none)

/-! ## Pattern extractor (src/chal2/src/main.rs regex_flag, identical in
src/chal1/src/scan.rs and src/chal2/src/scan.rs) -/

/-- The characters of the literal opener of the pattern flag\x7b(.*?)\x7d. -/
def flagOpen : List Char := ['f', 'l', 'a', 'g', '\x7b']

/-- The lazy capture (.*?)\x7d of the flag pattern, started right after the
opener: Rust regex . matches any character except a newline, and the lazy
quantifier stops at the first closing brace. `none` when no closing brace is
reachable from here (end of input or a newline first). -/
def lazyCapture : List Char → Option (List Char)
  | [] => none
  | c :: cs =>
    if c = '\x7d' then some []
    else if c = '\n' then none
    else (lazyCapture cs).map (fun t => c :: t)

/-- `regex_flag`: the capture of the leftmost-first match of the Rust regex
flag\x7b(.*?)\x7d in the haystack, as returned by
`captures(haystack).map(|c| c.get(1).unwrap().as_str())`. The engine tries
each start position from the left; a position matches when the opener
literal is present and a closing brace follows on the same line. -/
def regex_flag : List Char → Option (List Char)
  | [] => none
  | c :: cs =>
    if List.isPrefixOf flagOpen (c :: cs) then
      match lazyCapture ((c :: cs).drop 5) with
      | some tok => some tok
      | none => regex_flag cs
    else regex_flag cs

/-! ## chal2: concurrent scanner (src/chal2/src/main.rs, src/chal2/src/scan.rs) -/

/-- The struct `Ticket`: id plus two text fields scanned for the pattern. -/
structure Ticket where
  id : Nat
  subject : List Char
  description : List Char
  deriving DecidableEq

/-- The enum `ScanError` of chal2: a transport error (the reqwest error value
is opaque), an unknown JSON schema (raw bytes elided), or a structured error
response from the server. -/
inductive ScanError
  | io : ScanError
  | unknownSchema : ScanError
  | response (error : String) : ScanError
  deriving DecidableEq

/-- The enum `Scan` of chal2: the terminal result of the aggregator. -/
inductive Scan
  | success (flag : List Char) (id : Nat) : Scan
  | failure : Scan
  deriving DecidableEq

/-- A message on the bounded channel: `Result<Ticket, ScanError>`. -/
abbrev Msg := Except ScanError Ticket

/-- Classification of the bytes of one successful fetch, following the two
`json_from_slice` attempts of the worker: the bytes parse as a `Ticket`, or
as an `ErrorResponse { error }`, or as neither. -/
inductive Body
  | ticket (t : Ticket) : Body
  | errorResponse (error : String) : Body
  | unknown : Body
  deriving DecidableEq

/-- Outcome of `fetch(client, ticket_url).await` for one id: `Ok(bytes)`
(classified) or a transport `Err`. -/
inductive FetchResponse
  | bytes (b : Body) : FetchResponse
  | transportErr : FetchResponse
  deriving DecidableEq

/-- How one iteration of a worker loop ends: continue looping, break out of
the loop cleanly, or panic. -/
inductive Control
  | cont : Control
  | brk : Control
  | panics : Control
  deriving DecidableEq

/-- `tx.send(m).await`: the message is enqueued iff the receiver is still
open; the returned Bool is whether the send succeeded (an `Err` from `send`
means the receiver has closed). -/
def sendAwait (recvOpen : Bool) (m : Msg) : List Msg × Bool :=
  (if recvOpen then [m] else [], recvOpen)

/-- `_ = tx.send(m)` without `.await`: `Sender::send` is an async fn, so this
only constructs the send future and immediately drops it unpolled — nothing
is ever enqueued, whatever the receiver's state. -/
def sendDropped (_ : Msg) : List Msg := []

/-- One iteration of the match in `fetch_tickets` of src/chal2/src/main.rs
(the binary: main.rs does not declare `mod scan`), given the fetch outcome
for the current id: the messages actually enqueued on the channel, and how
the loop continues. -/
def fetch_tickets_step (recvOpen : Bool) : FetchResponse → List Msg × Control
  | FetchResponse.bytes (Body.ticket t) =>
    let r := sendAwait recvOpen (Except.ok t)
    if r.2 then (r.1, Control.cont) else (r.1, Control.brk)
  | FetchResponse.bytes (Body.errorResponse e) =>
    if e = "Ticket not found" then ([], Control.brk)
    else (sendDropped (Except.error (ScanError.response e)), Control.cont)
  | FetchResponse.bytes Body.unknown =>
    (sendDropped (Except.error ScanError.unknownSchema), Control.cont)
  | FetchResponse.transportErr =>
    (sendDropped (Except.error ScanError.io), Control.cont)

/-- One iteration of the match in `fetch_tickets` of src/chal2/src/scan.rs;
identical to the main.rs variant except that the error response
"Not authenticated" hits `panic!("Invalid session.")`. -/
def fetch_tickets_scan_step (recvOpen : Bool) : FetchResponse → List Msg × Control
  | FetchResponse.bytes (Body.ticket t) =>
    let r := sendAwait recvOpen (Except.ok t)
    if r.2 then (r.1, Control.cont) else (r.1, Control.brk)
  | FetchResponse.bytes (Body.errorResponse e) =>
    if e = "Ticket not found" then ([], Control.brk)
    else if e = "Not authenticated" then ([], Control.panics)
    else (sendDropped (Except.error (ScanError.response e)), Control.cont)
  | FetchResponse.bytes Body.unknown =>
    (sendDropped (Except.error ScanError.unknownSchema), Control.cont)
  | FetchResponse.transportErr =>
    (sendDropped (Except.error ScanError.io), Control.cont)

/-- `regex_flag(&subject).or_else(|| regex_flag(&description))` applied to a
ticket. -/
def ticket_flag (t : Ticket) : Option (List Char) :=
  (regex_flag t.subject).orElse (fun _ => regex_flag t.description)

/-- `process_tickets` (identical in src/chal2/src/main.rs and
src/chal2/src/scan.rs), on the sequence of messages the channel delivers:
`let Ticket ... = ticket?;` makes an error message the early `Err` return of
the whole function; a ticket whose subject or description matches the
pattern yields `Scan::Success` at once; an exhausted (closed and drained)
channel yields `Scan::Failure`. -/
def process_tickets : List Msg → Except ScanError Scan
  | [] => Except.ok Scan.failure
  | m :: rest =>
    match m with
    | Except.error e => Except.error e
    | Except.ok t =>
      match ticket_flag t with
      | some flag => Except.ok (Scan.success flag t.id)
      | none => process_tickets rest

/-- Decidable check that a message is a successfully parsed ticket in which
the pattern does not occur; used to describe channel contents the aggregator
passes over. -/
def okNoFlag : Msg → Bool
  | Except.ok t => (ticket_flag t).isNone
  | Except.error _ => false

/-! ## chal2: the shared atomic counter (src/chal2/src/main.rs line 63 and
line 113) -/

/-- usize on the 64-bit targets the tool runs on. -/
def usizeMod : Nat := 2 ^ 64

/-- `counter.fetch_add(1, Ordering::SeqCst)` on `AtomicUsize`: returns the
previous value and stores the wrapped successor. -/
def fetch_add (c : Nat) : Nat × Nat :=
  (c, (c + 1) % usizeMod)

/-- The sequence of ids handed out by `k` consecutive `fetch_add` calls
starting from stored value `c` (`AtomicUsize::new(c)`); sequential
consistency makes any concurrent execution equivalent to such a
linearization. -/
def counterRun (c : Nat) : Nat → List Nat
  | 0 => []
  | k + 1 => (fetch_add c).1 :: counterRun (fetch_add c).2 k

/-! ## Lemmas about the SkipSeq model -/

theorem getD_set_true_mono {l : List Bool} {i j : Nat} (h : l.getD j false = true) :
    (l.set i true).getD j false = true := by
  rcases eq_or_ne i j with rfl | hne
  · by_cases hj : i < l.length
    · simp [List.getD_eq_getElem?_getD, List.getElem?_set_eq_of_lt _ hj]
    · rw [List.getD_eq_default] at h
      · cases h
      · omega
  · rwa [List.getD_eq_getElem?_getD, List.getElem?_set_ne hne, ← List.getD_eq_getElem?_getD]

theorem getD_set_true_self {l : List Bool} {i : Nat} (h : i < l.length) :
    (l.set i true).getD i false = true := by
  simp [List.getD_eq_getElem?_getD, List.getElem?_set_eq_of_lt _ h]

theorem nextLoopFuel_some_bounds :
    ∀ (fuel : Nat) (sk : List Bool) (off o : Nat),
      nextLoopFuel fuel sk off = some o → off ≤ o ∧ sk.getD o false = false := by
  intro fuel
  induction fuel with
  | zero => intro sk off o h; simp [nextLoopFuel] at h
  | succ fuel ih =>
    intro sk off o h
    simp only [nextLoopFuel] at h
    split at h
    · have := ih sk (off + 1) o h
      exact ⟨by omega, this.2⟩
    · cases h
      rename_i hcond
      exact ⟨le_refl _, by simpa using hcond⟩

theorem nextLoopFuel_some :
    ∀ (fuel : Nat) (sk : List Bool) (off : Nat),
      sk.length ≤ off + fuel → ∃ o, nextLoopFuel (fuel + 1) sk off = some o := by
  intro fuel
  induction fuel with
  | zero =>
    intro sk off h
    refine ⟨off, ?_⟩
    simp only [nextLoopFuel]
    rw [List.getD_eq_default _ _ (by omega)]
    simp
  | succ fuel ih =>
    intro sk off h
    by_cases hc : sk.getD off false = true
    · obtain ⟨o, ho⟩ := ih sk (off + 1) (by omega)
      refine ⟨o, ?_⟩
      simp only [nextLoopFuel]
      rw [if_pos hc]
      exact ho
    · refine ⟨off, ?_⟩
      simp only [nextLoopFuel]
      rw [if_neg hc]

theorem nextLoop_eq (sk : List Bool) (off : Nat) :
    nextLoopFuel (sk.length + 1) sk off = some (nextLoop sk off) := by
  obtain ⟨o, ho⟩ := nextLoopFuel_some sk.length sk off (by omega)
  rw [nextLoop, ho]
  rfl

theorem nextLoop_ge (sk : List Bool) (off : Nat) : off ≤ nextLoop sk off :=
  (nextLoopFuel_some_bounds _ _ _ _ (nextLoop_eq sk off)).1

theorem nextLoop_unmarked (sk : List Bool) (off : Nat) :
    sk.getD (nextLoop sk off) false = false :=
  (nextLoopFuel_some_bounds _ _ _ _ (nextLoop_eq sk off)).2

theorem skipStep_next (s : SkipSeq) :
    skipStep s SkipOp.nextOp =
      some ({ s with offset := nextLoop s.skip s.offset + 1 },
        SkipEv.issued (s.passed + nextLoop s.skip s.offset)) := rfl

theorem skipN_some {s : SkipSeq} {n : Nat} {s2 : SkipSeq} {b : Bool}
    (h : s.skipN n = some (s2, b)) :
    (b = false ∧ s2 = s ∧ n < s.peek) ∨
    (b = true ∧ s.peek ≤ n ∧ n - s.passed < s.skip.length ∧
      s2.passed = s.passed ∧ s2.offset = s.offset ∧
      s2.skip = s.skip.set (n - s.passed) true) := by
  simp only [SkipSeq.skipN] at h
  split at h
  · split at h
    · cases h
    · split at h
      · right
        cases h
        rename_i hpeek _ hlen
        exact ⟨rfl, hpeek, hlen, rfl, rfl, rfl⟩
      · cases h
  · left
    cases h
    rename_i hpeek
    exact ⟨rfl, rfl, by omega⟩

theorem skipStep_skip_inv {s : SkipSeq} {n : Nat} {s2 : SkipSeq} {e : SkipEv}
    (h : skipStep s (SkipOp.skipOp n) = some (s2, e)) :
    ∃ b, s.skipN n = some (s2, b) ∧ e = SkipEv.skipTried n b := by
  simp only [skipStep] at h
  cases hsk : s.skipN n with
  | none => rw [hsk] at h; cases h
  | some p =>
    rw [hsk] at h
    simp only [Option.map_some'] at h
    cases h
    exact ⟨p.2, rfl, rfl⟩

theorem skipStep_inv {s : SkipSeq} {op : SkipOp} {s2 : SkipSeq} {e : SkipEv}
    (h : skipStep s op = some (s2, e)) :
    s2.passed = s.passed ∧ s.peek ≤ s2.peek ∧
    (∀ j, s.skip.getD j false = true → s2.skip.getD j false = true) := by
  cases op with
  | nextOp =>
    rw [skipStep_next] at h
    cases h
    refine ⟨rfl, ?_, fun j hj => hj⟩
    have := nextLoop_ge s.skip s.offset
    simp only [SkipSeq.peek]
    omega
  | skipOp n =>
    obtain ⟨b, hsk, rfl⟩ := skipStep_skip_inv h
    rcases skipN_some hsk with ⟨_, rfl, _⟩ | ⟨_, _, _, hp, ho, hs⟩
    · exact ⟨rfl, le_refl _, fun j hj => hj⟩
    · refine ⟨hp, ?_, fun j hj => ?_⟩
      · simp only [SkipSeq.peek]
        omega
      · rw [hs]
        exact getD_set_true_mono hj

theorem skipRun_cons_inv {s : SkipSeq} {op : SkipOp} {ops : List SkipOp}
    {sf : SkipSeq} {es : List SkipEv}
    (h : skipRun s (op :: ops) = some (sf, es)) :
    ∃ s2 e es2, skipStep s op = some (s2, e) ∧ skipRun s2 ops = some (sf, es2) ∧
      es = e :: es2 := by
  cases hst : skipStep s op with
  | none => rw [skipRun, hst] at h; cases h
  | some p =>
    obtain ⟨s2, e⟩ := p
    have hrw : skipRun s (op :: ops) =
        (skipRun s2 ops).map (fun q => (q.1, e :: q.2)) := by
      rw [skipRun, hst]
    rw [hrw] at h
    cases hrun : skipRun s2 ops with
    | none => rw [hrun] at h; cases h
    | some q =>
      obtain ⟨sq, esq⟩ := q
      rw [hrun] at h
      simp only [Option.map_some'] at h
      cases h
      exact ⟨s2, e, esq, rfl, hrun, rfl⟩

theorem run_not_issued :
    ∀ (ops : List SkipOp) (s sf : SkipSeq) (es : List SkipEv) (i : Nat),
      skipRun s ops = some (sf, es) → s.skip.getD i false = true →
      SkipEv.issued (s.passed + i) ∉ es := by
  intro ops
  induction ops with
  | nil =>
    intro s sf es i h _
    simp only [skipRun] at h
    cases h
    simp
  | cons op ops ih =>
    intro s sf es i h hm
    obtain ⟨s2, e, es2, hst, hrun, rfl⟩ := skipRun_cons_inv h
    have hinv := skipStep_inv hst
    have htail : SkipEv.issued (s.passed + i) ∉ es2 := by
      have := ih s2 sf es2 i hrun (hinv.2.2 i hm)
      rwa [hinv.1] at this
    intro hmem
    rcases List.mem_cons.mp hmem with heq | hmem2
    · cases op with
      | nextOp =>
        rw [skipStep_next] at hst
        cases hst
        injection heq with hval
        have hoi : nextLoop s.skip s.offset = i := by omega
        have hun := nextLoop_unmarked s.skip s.offset
        rw [hoi, hm] at hun
        cases hun
      | skipOp n =>
        obtain ⟨b, _, rfl⟩ := skipStep_skip_inv hst
        cases heq
    · exact htail hmem2

theorem run_peek_pairwise :
    ∀ (ops : List SkipOp) (s sf : SkipSeq) (es : List SkipEv),
      skipRun s ops = some (sf, es) →
      (∀ r ∈ issuedIds es, s.peek ≤ r) ∧ List.Pairwise (· < ·) (issuedIds es) := by
  intro ops
  induction ops with
  | nil =>
    intro s sf es h
    simp only [skipRun] at h
    cases h
    simp [issuedIds]
  | cons op ops ih =>
    intro s sf es h
    obtain ⟨s2, e, es2, hst, hrun, rfl⟩ := skipRun_cons_inv h
    have hih := ih s2 sf es2 hrun
    have hmono : s.peek ≤ s2.peek := (skipStep_inv hst).2.1
    cases op with
    | nextOp =>
      rw [skipStep_next] at hst
      cases hst
      have hge := nextLoop_ge s.skip s.offset
      simp only [issuedIds, List.filterMap_cons] at *
      constructor
      · intro r hr
        rcases List.mem_cons.mp hr with rfl | hr2
        · simp only [SkipSeq.peek]; omega
        · have := hih.1 r hr2
          simp only [SkipSeq.peek] at *
          omega
      · refine List.pairwise_cons.mpr ⟨?_, hih.2⟩
        intro r hr
        have := hih.1 r hr
        simp only [SkipSeq.peek] at *
        omega
    | skipOp n =>
      obtain ⟨b, _, rfl⟩ := skipStep_skip_inv hst
      simp only [issuedIds, List.filterMap_cons] at *
      exact ⟨fun r hr => le_trans hmono (hih.1 r hr), hih.2⟩

theorem run_skip_not_reissued :
    ∀ (ops : List SkipOp) (s sf : SkipSeq) (es : List SkipEv),
      skipRun s ops = some (sf, es) →
      ∀ (es1 : List SkipEv) (n : Nat) (es2 : List SkipEv),
        es = es1 ++ SkipEv.skipTried n true :: es2 → SkipEv.issued n ∉ es2 := by
  intro ops
  induction ops with
  | nil =>
    intro s sf es h es1 n es2 hsplit
    simp only [skipRun] at h
    cases h
    cases es1 <;> simp at hsplit
  | cons op ops ih =>
    intro s sf es h es1 n es2 hsplit
    obtain ⟨s2, e, es', hst, hrun, rfl⟩ := skipRun_cons_inv h
    cases es1 with
    | nil =>
      simp only [List.nil_append] at hsplit
      cases hsplit
      cases op with
      | nextOp =>
        rw [skipStep_next] at hst
        cases hst
      | skipOp m =>
        obtain ⟨b, hsk, he⟩ := skipStep_skip_inv hst
        cases he
        rcases skipN_some hsk with ⟨hb, _, _⟩ | ⟨_, hpeek, hlen, hp, _, hs⟩
        · cases hb
        · have hmark : s2.skip.getD (n - s2.passed) false = true := by
            rw [hs, hp]
            exact getD_set_true_self hlen
          have hn : n = s2.passed + (n - s2.passed) := by
            have : s2.passed ≤ n := by
              rw [hp]
              simp only [SkipSeq.peek] at hpeek
              omega
            omega
          rw [hn]
          exact run_not_issued ops s2 sf es2 (n - s2.passed) hrun hmark
    | cons e1 es1' =>
      simp only [List.cons_append] at hsplit
      cases hsplit
      exact ih s2 sf _ hrun es1' n es2 rfl

/-! ## Claims about the SkipSeq allocator -/

/-- C1: for every sequence of next()/skip() operations on a SkipSequence
allocator (any starting state, any completed run), the IDs returned by
next() are strictly increasing, and an ID accepted by a valid skip(n) call
(one made while n was at or beyond the next unissued ID, hence returning
true) is never later returned by next(). -/
theorem skipseq_trace_sound :
    ∀ (s0 : SkipSeq) (ops : List SkipOp) (sf : SkipSeq) (es : List SkipEv),
      skipRun s0 ops = some (sf, es) →
      List.Pairwise (· < ·) (issuedIds es) ∧
      ∀ (es1 : List SkipEv) (n : Nat) (es2 : List SkipEv),
        es = es1 ++ SkipEv.skipTried n true :: es2 → SkipEv.issued n ∉ es2 :=
  fun s0 ops sf es h =>
    ⟨(run_peek_pairwise ops s0 sf es h).2, run_skip_not_reissued ops s0 sf es h⟩

/-- Witness for C1: a concrete run in which skip(2) is accepted and the IDs
0, 1, 3 are then issued in increasing order, eliding 2. -/
theorem skipseq_trace_sound_witness :
    List.Pairwise (· < ·)
      (issuedIds [SkipEv.skipTried 2 true, SkipEv.issued 0, SkipEv.issued 1,
        SkipEv.issued 3]) ∧
    SkipEv.issued 2 ∉ [SkipEv.issued 0, SkipEv.issued 1, SkipEv.issued 3] := by
  have h := skipseq_trace_sound (SkipSeq.mk 0 0 [false, false, false] 0)
    [SkipOp.skipOp 2, SkipOp.nextOp, SkipOp.nextOp, SkipOp.nextOp]
    (SkipSeq.mk 0 4 [false, false, true] 5)
    [SkipEv.skipTried 2 true, SkipEv.issued 0, SkipEv.issued 1, SkipEv.issued 3]
    (by decide)
  exact ⟨h.1, h.2 [] 2 [SkipEv.issued 0, SkipEv.issued 1, SkipEv.issued 3] rfl⟩

/-- C2: the claim says a skip(n) with n at or beyond peek() completes without
fault, marks n and returns true. The code instead panics on every such call:
reserve never grows the vector's length, so the write self.skip[i] = true is
out of bounds from SkipSeq::new (and from with_capacity the subtraction
i - capacity already overflows, as with the with_capacity(1, 1_000_000)
allocator of src/chal1/src/main.rs). Both evaluations below hit the panic
(modelled as none) on the valid input n = 1 = peek(). -/
theorem skipseq_skip_valid_panics :
    (SkipSeq.new 1).skipN 1 = none ∧
    (SkipSeq.with_capacity 1 1000000).skipN 1 = none := by
  exact ⟨by decide, by decide⟩

/-- C9: skip(n) with n strictly below the next unissued ID returns false and
leaves the allocator state (cursor, passed count and skip-mark storage)
completely unchanged. -/
theorem skipseq_skip_behind_cursor_noop (s : SkipSeq) (n : Nat) (h : n < s.peek) :
    s.skipN n = some (s, false) := by
  unfold SkipSeq.skipN
  rw [if_neg (by omega)]

/-- Witness for C9 at a concrete allocator: skip(3) on a fresh allocator
whose next unissued ID is 5. -/
theorem skipseq_skip_behind_cursor_noop_witness :
    3 < (SkipSeq.new 5).peek ∧
      (SkipSeq.new 5).skipN 3 = some (SkipSeq.new 5, false) :=
  ⟨by decide, skipseq_skip_behind_cursor_noop (SkipSeq.new 5) 3 (by decide)⟩

/-- C10: next() terminates for every allocator state: the cursor-advancing
while loop (modelled with fuel, none meaning the loop has not yet exited)
always exits within skip.length + 1 iterations, because an index past the
end of the finite mark storage reads as unmarked and each iteration strictly
advances the cursor; next() then returns an ID. -/
theorem skipseq_next_total (s : SkipSeq) :
    ∃ o, nextLoopFuel (s.skip.length + 1) s.skip s.offset = some o ∧
      s.next = (s.passed + o, { s with offset := o + 1 }) :=
  ⟨nextLoop s.skip s.offset, nextLoop_eq s.skip s.offset, rfl⟩

/-! ## Lemmas about the pattern extractor -/

theorem isPrefixOf_eq_true_iff {l t : List Char} :
    List.isPrefixOf l t = true ↔ l <+: t := List.isPrefixOf_iff_prefix

theorem take_of_isPrefix {α : Type} {l t : List α} {n : Nat} (h : l <+: t)
    (hn : l.length ≤ n) : l <+: t.take n := by
  obtain ⟨r, rfl⟩ := h
  rw [List.take_append_eq_append_take, List.take_of_length_le hn]
  exact List.prefix_append _ _

theorem lazyCapture_roundtrip :
    ∀ (tok rest : List Char), '\x7d' ∉ tok → '\n' ∉ tok →
      lazyCapture (tok ++ '\x7d' :: rest) = some tok := by
  intro tok
  induction tok with
  | nil =>
    intro rest _ _
    simp [lazyCapture]
  | cons c cs ih =>
    intro rest h1 h2
    have hc1 : c ≠ '\x7d' := fun hc => h1 (hc ▸ List.mem_cons_self c cs)
    have hc2 : c ≠ '\n' := fun hc => h2 (hc ▸ List.mem_cons_self c cs)
    have htail := ih rest (fun hm => h1 (List.mem_cons_of_mem c hm))
      (fun hm => h2 (List.mem_cons_of_mem c hm))
    simp only [List.cons_append, lazyCapture, if_neg hc1, if_neg hc2,
      List.append_eq, htail, Option.map_some']


theorem regex_flag_roundtrip :
    ∀ (pre tok suf : List Char),
      '\x7d' ∉ tok → '\n' ∉ tok →
      ¬ flagOpen <:+: (pre ++ List.take 4 flagOpen) →
      regex_flag (pre ++ (flagOpen ++ (tok ++ '\x7d' :: suf))) = some tok := by
  intro pre
  induction pre with
  | nil =>
    intro tok suf h1 h2 _
    show regex_flag
      ('f' :: 'l' :: 'a' :: 'g' :: '\x7b' :: (tok ++ '\x7d' :: suf)) = some tok
    rw [regex_flag]
    have hcond : List.isPrefixOf flagOpen
        ('f' :: 'l' :: 'a' :: 'g' :: '\x7b' :: (tok ++ '\x7d' :: suf)) = true :=
      isPrefixOf_eq_true_iff.mpr ⟨tok ++ '\x7d' :: suf, rfl⟩
    rw [if_pos hcond]
    have hdrop : ('f' :: 'l' :: 'a' :: 'g' :: '\x7b' ::
        (tok ++ '\x7d' :: suf)).drop 5 = tok ++ '\x7d' :: suf := rfl
    rw [hdrop, lazyCapture_roundtrip tok suf h1 h2]
  | cons c pre ih =>
    intro tok suf h1 h2 hinf
    have hstep : (c :: pre) ++ (flagOpen ++ (tok ++ '\x7d' :: suf))
        = c :: (pre ++ (flagOpen ++ (tok ++ '\x7d' :: suf))) := rfl
    rw [hstep, regex_flag]
    have hne : ¬ (List.isPrefixOf flagOpen
        (c :: (pre ++ (flagOpen ++ (tok ++ '\x7d' :: suf)))) = true) := by
      intro habs
      apply hinf
      have hpref : flagOpen <+: (c :: pre) ++ (flagOpen ++ (tok ++ '\x7d' :: suf)) :=
        isPrefixOf_eq_true_iff.mp habs
      have h5 : flagOpen.length = 5 := rfl
      have hlen : flagOpen.length ≤ (c :: pre).length + 4 := by
        rw [h5]
        simp [List.length_cons]
      have htake := take_of_isPrefix hpref hlen
      have hshape : ((c :: pre) ++ (flagOpen ++ (tok ++ '\x7d' :: suf))).take
          ((c :: pre).length + 4) = (c :: pre) ++ List.take 4 flagOpen := by
        rw [List.take_append_eq_append_take]
        rw [List.take_of_length_le (show (c :: pre).length ≤ (c :: pre).length + 4 by omega)]
        rw [show (c :: pre).length + 4 - (c :: pre).length = 4 from by omega]
        rw [List.take_append_eq_append_take]
        rw [show (4 : Nat) - flagOpen.length = 0 from rfl]
        rw [List.take_zero, List.append_nil]
      rw [hshape] at htake
      obtain ⟨r, hr⟩ := htake
      exact ⟨[], r, by simpa using hr⟩
    rw [if_neg hne]
    refine ih tok suf h1 h2 ?_
    intro habs
    apply hinf
    obtain ⟨s, t, hst⟩ := habs
    refine ⟨c :: s, t, ?_⟩
    show c :: (s ++ flagOpen ++ t) = c :: (pre ++ List.take 4 flagOpen)
    rw [hst]

/-! ## Claims about the pattern extractor -/

/-- C5 counterexample: the claim promises the token back for ANY prefix, but
with prefix "flag\x7b" (and token "x", empty suffix) the leftmost-first match
of the pattern starts inside the prefix and the lazy capture runs to the
first closing brace, returning "flag\x7bx" instead of "x". -/
theorem regex_flag_roundtrip_cex :
    '\x7d' ∉ ['x'] ∧
    regex_flag (['f', 'l', 'a', 'g', '\x7b'] ++ (flagOpen ++ (['x'] ++ '\x7d' :: [])))
      = some ['f', 'l', 'a', 'g', '\x7b', 'x'] ∧
    regex_flag (['f', 'l', 'a', 'g', '\x7b'] ++ (flagOpen ++ (['x'] ++ '\x7d' :: [])))
      ≠ some ['x'] := by
  exact ⟨by decide, by decide, by decide⟩

/-- C5 amended: for any text prefix ++ "flag\x7b" ++ token ++ "\x7d" ++ suffix
in which token contains no closing brace and no newline (the regex . does not
cross newlines), and in which the pattern opener "flag\x7b" does not already
occur before the intended one (not an infix of prefix ++ "flag"), the
extractor returns exactly token, regardless of the suffix and of any other
content of the prefix. -/
theorem regex_flag_roundtrip_amended (pre tok suf : List Char)
    (h1 : '\x7d' ∉ tok) (h2 : '\n' ∉ tok)
    (h3 : ¬ flagOpen <:+: (pre ++ List.take 4 flagOpen)) :
    regex_flag (pre ++ (flagOpen ++ (tok ++ '\x7d' :: suf))) = some tok :=
  regex_flag_roundtrip pre tok suf h1 h2 h3

/-- Witness for the amended C5 at concrete strings: prefix "see: ", token
"WIN", suffix " etc". -/
theorem regex_flag_roundtrip_amended_witness :
    ('\x7d' ∉ ['W', 'I', 'N'] ∧ '\n' ∉ ['W', 'I', 'N'] ∧
      ¬ flagOpen <:+: (['s', 'e', 'e', ':', ' '] ++ List.take 4 flagOpen)) ∧
    regex_flag (['s', 'e', 'e', ':', ' '] ++
        (flagOpen ++ (['W', 'I', 'N'] ++ '\x7d' :: [' ', 'e', 't', 'c'])))
      = some ['W', 'I', 'N'] :=
  ⟨⟨by decide, by decide, by decide⟩,
    regex_flag_roundtrip_amended ['s', 'e', 'e', ':', ' '] ['W', 'I', 'N']
      [' ', 'e', 't', 'c'] (by decide) (by decide) (by decide)⟩

/-! ## Claims about the chal2 pipeline -/

/-- C3: the claim says every per-item recoverable error (transport failure,
unknown response schema, non-fatal remote rejection) is delivered to the
aggregator on the same channel as successful items, wrapped as Err. In the
code each of those three branches writes `_ = tx.send(Err(..))` without
`.await`, so the send future is dropped unpolled and nothing is ever
enqueued: with the receiver open, all three recoverable outcomes deliver no
message at all (while a parsed ticket is delivered, first conjunct). -/
theorem worker_recoverable_errors_never_delivered (t : Ticket) :
    fetch_tickets_step true (FetchResponse.bytes (Body.ticket t))
      = ([Except.ok t], Control.cont) ∧
    fetch_tickets_step true FetchResponse.transportErr = ([], Control.cont) ∧
    fetch_tickets_step true (FetchResponse.bytes Body.unknown)
      = ([], Control.cont) ∧
    fetch_tickets_step true (FetchResponse.bytes (Body.errorResponse "boom"))
      = ([], Control.cont) :=
  ⟨rfl, rfl, rfl, rfl⟩

/-- C4 counterexample: the claim says a received error item is reported but
the scan continues with subsequent items. On the concrete channel content
[Err "boom", Ok matching-ticket] the aggregator returns the error as the
run's terminal failure and never reaches the matching ticket that follows
(which, alone, would yield Success). -/
theorem aggregator_error_stops_scan_cex :
    process_tickets [Except.error (ScanError.response "boom"),
        Except.ok ⟨3, ['x'], ['f', 'l', 'a', 'g', '\x7b', 'W', 'I', 'N', '\x7d']⟩]
      = Except.error (ScanError.response "boom") ∧
    process_tickets
        [Except.ok ⟨3, ['x'], ['f', 'l', 'a', 'g', '\x7b', 'W', 'I', 'N', '\x7d']⟩]
      = Except.ok (Scan.success ['W', 'I', 'N'] 3) ∧
    (Except.error (ScanError.response "boom") : Except ScanError Scan)
      ≠ Except.ok (Scan.success ['W', 'I', 'N'] 3) := by
  exact ⟨rfl, rfl, fun h => Except.noConfusion h⟩

/-- C4 amended: when the aggregator receives an error item from the channel
it surfaces it by halting: `ticket?` makes the error the immediate return
value of process_tickets, the run's terminal failure, and no further items
are processed — whatever follows on the channel. -/
theorem aggregator_error_halts (e : ScanError) (rest : List Msg) :
    process_tickets (Except.error e :: rest) = Except.error e := rfl

/-- C6: k next() calls on a fresh Counter allocator starting at offset (the
linearization of `fetch_add(1, SeqCst)` on `AtomicUsize::new(offset)`) hand
out exactly the contiguous increasing run offset, offset+1, ...,
offset+k-1, each ID exactly once (no duplicates, no lost calls), as long as
the usize counter does not wrap. -/
theorem counter_ids_contiguous_distinct (off k : Nat) (h : off + k ≤ usizeMod) :
    counterRun off k = List.range' off k ∧ (counterRun off k).Nodup := by
  have he : ∀ (k off : Nat), off + k ≤ usizeMod → counterRun off k = List.range' off k := by
    intro k
    induction k with
    | zero => intro off _; rfl
    | succ k ih =>
      intro off hk
      show (fetch_add off).1 :: counterRun (fetch_add off).2 k = List.range' off (k + 1)
      rw [List.range'_succ]
      cases k with
      | zero => rfl
      | succ k2 =>
        have hmod : (off + 1) % usizeMod = off + 1 :=
          Nat.mod_eq_of_lt (by simp [usizeMod] at hk ⊢; omega)
        have h2 : (fetch_add off).2 = off + 1 := by
          show (off + 1) % usizeMod = off + 1
          exact hmod
        rw [show (fetch_add off).1 = off from rfl, h2, ih (off + 1) (by omega)]
  have heq := he k off h
  exact ⟨heq, by rw [heq]; exact List.nodup_range' off k⟩

/-- Witness for C6: five calls starting at the binary's configured offset 1
yield 1, 2, 3, 4, 5. -/
theorem counter_ids_contiguous_distinct_witness :
    1 + 5 ≤ usizeMod ∧
    counterRun 1 5 = List.range' 1 5 ∧ (counterRun 1 5).Nodup :=
  ⟨by decide, (counter_ids_contiguous_distinct 1 5 (by decide)).1,
    (counter_ids_contiguous_distinct 1 5 (by decide)).2⟩

/-- C7: once the aggregator meets an item whose subject or description
matches, it returns Success with that token and that item's id without
processing anything that follows on the channel (the result does not depend
on rest), and after the receiver is dropped a worker whose awaited push
fails breaks out of its loop cleanly — a benign close, not a fault. -/
theorem aggregator_found_stops_and_close_benign
    (pre : List Msg) (t : Ticket) (rest : List Msg) (flag : List Char)
    (t2 : Ticket) (hpre : pre.all okNoFlag = true)
    (hm : ticket_flag t = some flag) :
    process_tickets (pre ++ Except.ok t :: rest)
      = Except.ok (Scan.success flag t.id) ∧
    fetch_tickets_step false (FetchResponse.bytes (Body.ticket t2))
      = ([], Control.brk) := by
  constructor
  · induction pre with
    | nil =>
      show process_tickets (Except.ok t :: rest) = _
      rw [process_tickets]
      rw [hm]
    | cons m pre ih =>
      rw [List.all_cons, Bool.and_eq_true] at hpre
      cases m with
      | error e => simp [okNoFlag] at hpre
      | ok tm =>
        have hnone : ticket_flag tm = none := by
          have h1 := hpre.1
          simp only [okNoFlag, Option.isNone_iff_eq_none] at h1
          exact h1
        show process_tickets (Except.ok tm :: (pre ++ Except.ok t :: rest)) = _
        rw [process_tickets, hnone]
        exact ih hpre.2
  · rfl

/-- Witness for C7: a concrete channel content with one non-matching ticket
before the matching one and one item after it, and a concrete worker push
after shutdown. -/
theorem aggregator_found_stops_and_close_benign_witness :
    ([Except.ok ⟨1, ['n', 'o'], ['n', 'i', 'l']⟩] : List Msg).all okNoFlag = true ∧
    ticket_flag ⟨3, ['x'], ['f', 'l', 'a', 'g', '\x7b', 'W', 'I', 'N', '\x7d']⟩
      = some ['W', 'I', 'N'] ∧
    process_tickets ([Except.ok ⟨1, ['n', 'o'], ['n', 'i', 'l']⟩] ++
        Except.ok ⟨3, ['x'], ['f', 'l', 'a', 'g', '\x7b', 'W', 'I', 'N', '\x7d']⟩ ::
          [Except.error ScanError.io])
      = Except.ok (Scan.success ['W', 'I', 'N'] 3) ∧
    fetch_tickets_step false
        (FetchResponse.bytes (Body.ticket ⟨9, ['a'], ['b']⟩))
      = ([], Control.brk) := by
  have h := aggregator_found_stops_and_close_benign
    [Except.ok ⟨1, ['n', 'o'], ['n', 'i', 'l']⟩]
    ⟨3, ['x'], ['f', 'l', 'a', 'g', '\x7b', 'W', 'I', 'N', '\x7d']⟩
    [Except.error ScanError.io] ['W', 'I', 'N'] ⟨9, ['a'], ['b']⟩
    (by decide) (by decide)
  exact ⟨by decide, by decide, h.1, h.2⟩

/-- C8 counterexample: in the worker loop actually compiled into the chal2
binary (fetch_tickets in src/chal2/src/main.rs — main.rs does not use the
scan.rs module), the error response "Not authenticated" falls into the
catch-all rejection branch: the worker delivers nothing (the send future is
dropped unawaited) and simply continues its loop, so the rejection is not
escalated and nothing halts the run. -/
theorem auth_failure_not_escalated_in_main_cex :
    fetch_tickets_step true
        (FetchResponse.bytes (Body.errorResponse "Not authenticated"))
      = ([], Control.cont) := rfl

/-- C8 amended: only the scan.rs variant of the worker escalates an invalid
session: there `"Not authenticated" => panic!("Invalid session.")` makes the
worker panic at once instead of logging and continuing, while the main.rs
variant compiled into the binary treats the same rejection as an ordinary
recoverable one and keeps looping (reporting nothing, its send future being
dropped unawaited). -/
theorem auth_failure_panics_in_scan_variant :
    fetch_tickets_scan_step true
        (FetchResponse.bytes (Body.errorResponse "Not authenticated"))
      = ([], Control.panics) ∧
    fetch_tickets_step true
        (FetchResponse.bytes (Body.errorResponse "Not authenticated"))
      = ([], Control.cont) :=
  ⟨rfl, rfl⟩
